import Mathlib

/-!
Verification of the protocol client and conversation-state core of the
cognigy-a2a-webchat-ui repository.

The development shallowly embeds, from the TypeScript source:
  * `src/lib/a2aClient.ts` — the SSE stream decoder (`streamMessage`,
    `processBuffer`, `dispatchSseEvent`), `sendMessage`, `partsToText`;
  * `src/hooks/useTypewriter.ts` (the `useChat` hook) — the conversation
    store operations `appendParts`, `updateMessage`, `adoptContextId`,
    `truncate`, and the synchronous send path.

Text is modelled at the level of decoded characters (`List Char`); the
browser's `TextDecoder` with `stream: true` reassembles code points split
across chunk boundaries, so chunking of the byte stream is represented as
chunking of the character stream.  JSON values are modelled by an inductive
`Json` type and `JSON.parse` by an executable parser `parseJson`.
-/

namespace A2A

/-- Model of a JavaScript JSON value as produced by `JSON.parse`.
Numbers keep their source token; no claim depends on numeric values. -/
inductive Json where
  | null : Json
  | bool (b : Bool) : Json
  | num (tok : String) : Json
  | str (s : String) : Json
  | arr (elems : List Json) : Json
  | obj (fields : List (String × Json)) : Json

instance : Inhabited Json := ⟨Json.null⟩

/-! ### A model of `JSON.parse`

An executable recursive-descent parser for JSON, modelling the JavaScript
built-in used at `a2aClient.ts:138`.  Structural recursion on a fuel
argument keeps every definition kernel-reducible. -/

/-- JSON insignificant whitespace. -/
def jsonWS (c : Char) : Bool := c = ' ' || c = '\t' || c = '\n' || c = '\r'

def skipWS (cs : List Char) : List Char := cs.dropWhile jsonWS

def isDigit (c : Char) : Bool := '0' ≤ c && c ≤ '9'

def hexVal (c : Char) : Option Nat :=
  if '0' ≤ c ∧ c ≤ '9' then some (c.toNat - '0'.toNat)
  else if 'a' ≤ c ∧ c ≤ 'f' then some (c.toNat - 'a'.toNat + 10)
  else if 'A' ≤ c ∧ c ≤ 'F' then some (c.toNat - 'A'.toNat + 10)
  else none

/-- Parse the body of a JSON string after the opening quote; returns the
decoded characters and the remaining input. -/
def parseStrBody : List Char → Option (List Char × List Char)
  | [] => none
  | c :: rest =>
    if c = '"' then some ([], rest)
    else if c = '\\' then
      match rest with
      | [] => none
      | 'u' :: a :: b :: c2 :: d :: rest2 =>
        match hexVal a, hexVal b, hexVal c2, hexVal d with
        | some ha, some hb, some hc, some hd =>
          (parseStrBody rest2).map fun p =>
            (Char.ofNat (((ha * 16 + hb) * 16 + hc) * 16 + hd) :: p.1, p.2)
        | _, _, _, _ => none
      | e :: rest2 =>
        let esc : Option Char :=
          if e = '"' then some '"' else if e = '\\' then some '\\'
          else if e = '/' then some '/' else if e = 'b' then some '\x08'
          else if e = 'f' then some '\x0c' else if e = 'n' then some '\n'
          else if e = 'r' then some '\r' else if e = 't' then some '\t'
          else none
        match esc with
        | some ch => (parseStrBody rest2).map fun p => (ch :: p.1, p.2)
        | none => none
    else if c.toNat < 0x20 then none
    else (parseStrBody rest).map fun p => (c :: p.1, p.2)

/-- Parse a JSON number token: `-?(0|[1-9][0-9]*)(\.[0-9]+)?([eE][+-]?[0-9]+)?`. -/
def parseNumber (cs : List Char) : Option (List Char × List Char) :=
  let (neg, cs1) := match cs with
    | '-' :: r => (['-'], r)
    | _ => (([] : List Char), cs)
  match cs1 with
  | [] => none
  | c :: _ =>
    if ¬ isDigit c then none else
    let (intPart, cs2) :=
      if c = '0' then (['0'], cs1.tail)
      else (cs1.takeWhile isDigit, cs1.dropWhile isDigit)
    let fracRes : Option (List Char × List Char) :=
      match cs2 with
      | '.' :: r =>
        let ds := r.takeWhile isDigit
        if ds = [] then none else some ('.' :: ds, r.dropWhile isDigit)
      | _ => some ([], cs2)
    match fracRes with
    | none => none
    | some (fracPart, cs3) =>
      match cs3 with
      | e :: r =>
        if e = 'e' ∨ e = 'E' then
          let (sgn, r2) := match r with
            | '+' :: r' => (['+'], r')
            | '-' :: r' => (['-'], r')
            | _ => (([] : List Char), r)
          let ds := r2.takeWhile isDigit
          if ds = [] then none
          else some (neg ++ intPart ++ fracPart ++ e :: sgn ++ ds, r2.dropWhile isDigit)
        else some (neg ++ intPart ++ fracPart, cs3)
      | [] => some (neg ++ intPart ++ fracPart, cs3)

mutual

/-- Parse one JSON value (fuel-indexed recursive descent). -/
def parseVal : Nat → List Char → Option (Json × List Char)
  | 0, _ => none
  | fuel + 1, cs =>
    match skipWS cs with
    | [] => none
    | c :: rest =>
      if c = '"' then
        (parseStrBody rest).map fun p => (Json.str (String.mk p.1), p.2)
      else if c = '[' then
        match skipWS rest with
        | ']' :: r => some (Json.arr [], r)
        | cs2 => (parseItems fuel cs2).map fun p => (Json.arr p.1, p.2)
      else if c = '{' then
        match skipWS rest with
        | '}' :: r => some (Json.obj [], r)
        | cs2 => (parseFields fuel cs2).map fun p => (Json.obj p.1, p.2)
      else
        match c :: rest with
        | 't' :: 'r' :: 'u' :: 'e' :: r => some (Json.bool true, r)
        | 'f' :: 'a' :: 'l' :: 's' :: 'e' :: r => some (Json.bool false, r)
        | 'n' :: 'u' :: 'l' :: 'l' :: r => some (Json.null, r)
        | cs2 => (parseNumber cs2).map fun p => (Json.num (String.mk p.1), p.2)

/-- Parse a nonempty comma-separated list of array elements up to `]`. -/
def parseItems : Nat → List Char → Option (List Json × List Char)
  | 0, _ => none
  | fuel + 1, cs => do
    let (v, r) ← parseVal fuel cs
    match skipWS r with
    | ']' :: r2 => some ([v], r2)
    | ',' :: r2 =>
      let (vs, r3) ← parseItems fuel r2
      some (v :: vs, r3)
    | _ => none

/-- Parse a nonempty comma-separated list of object members up to `}`. -/
def parseFields : Nat → List Char → Option (List (String × Json) × List Char)
  | 0, _ => none
  | fuel + 1, cs => do
    match skipWS cs with
    | '"' :: r =>
      let (k, r2) ← parseStrBody r
      match skipWS r2 with
      | ':' :: r3 =>
        let (v, r4) ← parseVal fuel r3
        match skipWS r4 with
        | '}' :: r5 => some ([(String.mk k, v)], r5)
        | ',' :: r5 =>
          let (fs, r6) ← parseFields fuel r5
          some ((String.mk k, v) :: fs, r6)
        | _ => none
      | _ => none
    | _ => none

end

/-- Model of `JSON.parse`: parse a whole value, allowing surrounding
whitespace, rejecting trailing input. -/
def parseJson (cs : List Char) : Option Json :=
  match parseVal (cs.length + 1) cs with
  | some (j, rest) => if skipWS rest = [] then some j else none
  | none => none

/-! ### JavaScript object/value helpers used by the decoder -/

/-- Property lookup on a JS object (duplicate keys: the last one wins, as
in `JSON.parse`); property access on any non-object value yields
`undefined` for the keys the decoder uses. -/
def getField (j : Json) (k : String) : Option Json :=
  match j with
  | .obj fs => (fs.reverse.find? (fun p => p.1 == k)).map (·.2)
  | _ => none

/-- Truthiness of a JSON number token: falsy exactly when the value is
zero (every digit of the mantissa is `0`). -/
def numTruthy (tok : String) : Bool :=
  (tok.toList.takeWhile (fun c => c ≠ 'e' ∧ c ≠ 'E')).any (fun c => '1' ≤ c && c ≤ '9')

/-- JavaScript truthiness of a parsed JSON value. -/
def Json.truthy : Json → Bool
  | .null => false
  | .bool b => b
  | .num tok => numTruthy tok
  | .str s => s ≠ ""
  | .arr _ => true
  | .obj _ => true

/-- `typeof x === 'object'` for a parsed JSON value (objects, arrays and
`null`; the decoder always pairs this with a truthiness test, which
excludes `null`). -/
def isObjType : Json → Bool
  | .obj _ => true
  | .arr _ => true
  | .null => true
  | _ => false

/-- The `.length` property as read by `parts?.length`: array and string
lengths, an explicit `length` member on plain objects, `undefined`
otherwise. -/
def jsLength : Json → Option Json
  | .arr xs => some (.num (toString xs.length))
  | .str s => some (.num (toString s.length))
  | .obj fs => getField (.obj fs) "length"
  | _ => none

/-- The test `if (parts?.length)` applied to the value of a `parts`
property (`none` = the property was absent/undefined). -/
def hasParts : Option Json → Bool
  | none => false
  | some p =>
    match jsLength p with
    | some l => l.truthy
    | none => false

/-- Unwrap the JSON-RPC envelope, as done identically at
`a2aClient.ts:146-149` (contextId capture) and `a2aClient.ts:189-192`
(event dispatch): if the payload marks itself `jsonrpc: "2.0"` and carries
a truthy object-typed `result`, work with the inner result. -/
def unwrapEnvelope (env : Json) : Json :=
  match getField env "jsonrpc" with
  | some (.str "2.0") =>
    match getField env "result" with
    | some r => if r.truthy && isObjType r then r else env
    | none => env
  | _ => env

/-! ### Domain-event dispatch (`dispatchSseEvent`, `a2aClient.ts:178-230`) -/

/-- A callback delivered to the caller of `streamMessage`.  `part` carries
the raw JSON value passed to `onPart` (the TS code casts it to `Part[]`
without checking). -/
inductive Callback where
  | working : Callback
  | part (payload : Json) : Callback
  | done (cid : Option Json) : Callback
  | error (msg : String) : Callback

/-- `dispatchSseEvent(raw, cb, _)`: the ordered list of callbacks it
fires. -/
def dispatchSseEvent (raw : Json) : List Callback :=
  if ¬ (raw.truthy && isObjType raw) then []
  else
    let event := unwrapEnvelope raw
    match getField event "kind" with
    | some (.str "status-update") =>
      let status := getField event "status"
      let state := status.bind (fun s => getField s "state")
      match state with
      | some (.str "working") =>
        let message := status.bind (fun s => getField s "message")
        let parts := message.bind (fun m => getField m "parts")
        if hasParts parts then [.part parts.get!] else [.working]
      | _ => []
    | some (.str "artifact-update") =>
      let parts := (getField event "artifact").bind (fun a => getField a "parts")
      if hasParts parts then [.part parts.get!] else []
    | some (.str "message") =>
      let parts := getField event "parts"
      if hasParts parts then [.part parts.get!] else []
    | _ => []

/-- Lines 144-152 of `a2aClient.ts`: capture the first truthy `contextId`
seen in the (unwrapped) payload. -/
def captureCid (firstCid : Option Json) (parsed : Json) : Option Json :=
  if parsed.truthy && isObjType parsed then
    let inner := unwrapEnvelope parsed
    match getField inner "contextId" with
    | some cid =>
      match firstCid with
      | none => if cid.truthy then some cid else none
      | some x => some x
    | none => firstCid
  else firstCid

/-! ### The SSE framing layer (`streamMessage`/`processBuffer`,
`a2aClient.ts:93-176`) -/

/-- `buffer.replace(/\r\n/g, '\n')`: left-to-right non-overlapping
replacement of CRLF pairs. -/
def replCRLF : List Char → List Char
  | [] => []
  | [c] => [c]
  | c1 :: c2 :: rest =>
    if c1 = '\r' ∧ c2 = '\n' then '\n' :: replCRLF rest
    else c1 :: replCRLF (c2 :: rest)

/-- `.replace(/\r/g, '\n')`. -/
def replCR (cs : List Char) : List Char :=
  cs.map (fun c => if c = '\r' then '\n' else c)

/-- The normalization applied to the buffer before splitting
(`a2aClient.ts:122`). -/
def normalizeBuf (cs : List Char) : List Char := replCR (replCRLF cs)

/-- Attach a character to the first piece of a split result. -/
def consHead (c : Char) : List (List Char) → List (List Char)
  | [] => [[c]]
  | h :: t => (c :: h) :: t

/-- `normalized.split('\n\n')`: greedy left-to-right splitting on blank
lines; always returns at least one piece. -/
def splitOnNN : List Char → List (List Char)
  | [] => [[]]
  | [c] => [[c]]
  | c1 :: c2 :: rest =>
    if c1 = '\n' ∧ c2 = '\n' then [] :: splitOnNN rest
    else consHead c1 (splitOnNN (c2 :: rest))

/-- `eventBlock.split('\n')`. -/
def splitOnNL : List Char → List (List Char)
  | [] => [[]]
  | c :: rest =>
    if c = '\n' then [] :: splitOnNL rest
    else consHead c (splitOnNL rest)

/-- `dataLines.join('\n')`. -/
def joinNL : List (List Char) → List Char
  | [] => []
  | [x] => x
  | x :: y :: rest => x ++ '\n' :: joinNL (y :: rest)

/-- ASCII model of JavaScript `String.prototype.trim` whitespace. -/
def isTrimWS (c : Char) : Bool :=
  c = ' ' || c = '\t' || c = '\n' || c = '\r' || c = '\x0b' || c = '\x0c'

/-- `s.trim()`. -/
def trimList (cs : List Char) : List Char :=
  ((cs.dropWhile isTrimWS).reverse.dropWhile isTrimWS).reverse

/-- Split a nonempty list of pieces into all-but-last and last
(`events`/`events.pop()`). -/
def initLast : List (List Char) → List (List Char) × List Char
  | [] => ([], [])
  | [x] => ([], x)
  | x :: y :: rest =>
    let p := initLast (y :: rest)
    (x :: p.1, p.2)

/-- The marker tested by `line.startsWith('data: ')`. -/
def dataMarker : List Char := "data: ".toList

/-- The joined, trimmed `data:` payload of one event block
(`a2aClient.ts:129-134`). -/
def rawOfBlock (block : List Char) : List Char :=
  trimList (joinNL ((splitOnNL block).filterMap
    (fun l => if dataMarker.isPrefixOf l then some (l.drop 6) else none)))

/-- Process one complete event block (the body of the `for` loop in
`processBuffer`, `a2aClient.ts:126-155`), threading the captured first
context identifier. -/
def handleBlock (firstCid : Option Json) (block : List Char) :
    Option Json × List Callback :=
  if trimList block = [] then (firstCid, [])
  else
    let raw := rawOfBlock block
    if raw = [] ∨ raw = "[DONE]".toList then (firstCid, [])
    else
      match parseJson raw with
      | none => (firstCid, [])
      | some parsed => (captureCid firstCid parsed, dispatchSseEvent parsed)

/-- Process a list of complete blocks in order. -/
def runBlocks (firstCid : Option Json) : List (List Char) → Option Json × List Callback
  | [] => (firstCid, [])
  | b :: bs =>
    let r1 := handleBlock firstCid b
    let r2 := runBlocks r1.1 bs
    (r2.1, r1.2 ++ r2.2)

/-- Decoder state across chunks: the unconsumed tail of the (normalized)
text and the first captured context identifier. -/
structure DecState where
  buffer : List Char
  firstCid : Option Json

/-- `processBuffer` (`a2aClient.ts:121-156`): normalize the buffer, split
into blocks, keep the last piece as the new buffer, process complete
blocks. -/
def processBuffer (st : DecState) : DecState × List Callback :=
  let pieces := initLast (splitOnNN (normalizeBuf st.buffer))
  let r := runBlocks st.firstCid pieces.1
  ({ buffer := pieces.2, firstCid := r.1 }, r.2)

/-- One loop iteration on a successfully read chunk
(`a2aClient.ts:166-167`): append the decoded chunk to the buffer and run
`processBuffer`. -/
def feedChunk (st : DecState) (chunk : List Char) : DecState × List Callback :=
  processBuffer { st with buffer := st.buffer ++ chunk }

/-- Feed a list of chunks in order, concatenating the emitted callbacks. -/
def feedChunks (st : DecState) : List (List Char) → DecState × List Callback
  | [] => (st, [])
  | c :: cs =>
    let r1 := feedChunk st c
    let r2 := feedChunks r1.1 cs
    (r2.1, r1.2 ++ r2.2)

/-- End-of-stream flush (`a2aClient.ts:162`): if the remaining buffer is
nonblank, complete it with a blank line and process it. -/
def flushEOS (st : DecState) : DecState × List Callback :=
  if trimList st.buffer = [] then (st, [])
  else processBuffer { st with buffer := st.buffer ++ ['\n', '\n'] }

/-- How the stream's read sequence terminates: graceful end of stream, or
a transport failure (fetch/read rejection) carrying an error message. -/
inductive StreamEnd where
  | eof : StreamEnd
  | fail (msg : String) : StreamEnd

def decCancel : Option Nat → Option Nat
  | none => none
  | some n => some (n - 1)

/-- The read loop of `streamMessage` (`a2aClient.ts:158-172`).
`cancelAfter = some k` models `cancel()` being invoked (setting the
`aborted` flag) while the `(k+1)`-th `await reader.read()` is pending;
`none` models a stream that is never cancelled.  JavaScript is
single-threaded, so the flag can only change at those suspension points;
`some 0` makes the loop `break` (or the catch handler return) with no
further callback. -/
def runStreamGo : List (List Char) → DecState → StreamEnd → Option Nat → List Callback
  | _chunks, _st, _ending, some 0 => []
  | [], st, .eof, _ =>
    let r := flushEOS st
    r.2 ++ [.done r.1.firstCid]
  | [], _st, .fail m, _ => [.error m]
  | c :: rest, st, ending, ca =>
    let r := feedChunk st c
    r.2 ++ runStreamGo rest r.1 ending (decCancel ca)

def initState : DecState := { buffer := [], firstCid := none }

/-- The full observable callback trace of one stream. -/
def runStream (chunks : List (List Char)) (ending : StreamEnd)
    (cancelAfter : Option Nat) : List Callback :=
  runStreamGo chunks initState ending cancelAfter

/-- The callback trace of a gracefully completed, never-cancelled stream
delivered as the given chunks. -/
def decodeStream (chunks : List (List Char)) : List Callback :=
  runStream chunks .eof none

/-! ### Data model of the conversation store (`types/a2a.ts`)

Timestamps (`Date`) are modelled as natural numbers; operations that call
`new Date()` take the current time as an explicit argument. -/

/-- `Part = TextPart | DataPart`. -/
inductive Part where
  | text (text : String) : Part
  | data (type : String) (payload : Json) : Part

/-- `MessageStatus`. -/
inductive MsgStatus where
  | sending | streaming | done | error
deriving DecidableEq, Repr

/-- `ChatMessage`. -/
structure ChatMessage where
  id : String
  role : String
  parts : List Part
  status : MsgStatus
  displayText : Option String := none
  agentName : Option String := none
  timestamp : Nat

/-- `Conversation`. -/
structure Conversation where
  id : String
  agentId : String
  title : String
  messages : List ChatMessage
  createdAt : Nat
  updatedAt : Nat

/-- `partsToText` (`a2aClient.ts:234-239`) and the identical inline
recomputation in `appendParts` (`useTypewriter.ts:215-218`): the
newline-joined text of all `Text` parts, in order. -/
def partsToText (parts : List Part) : String :=
  String.intercalate "\n" (parts.filterMap
    (fun p => match p with | .text t => some t | .data _ _ => none))

/-! ### Store operations (`useTypewriter.ts`, the `useChat` hook) -/

/-- `updateMessage` (`useTypewriter.ts:195-206`): replace the named
message via an updater; structurally a no-op where ids do not match.
It does not touch `updatedAt`. -/
def updateMessage (convs : List Conversation) (convId msgId : String)
    (f : ChatMessage → ChatMessage) : List Conversation :=
  convs.map fun c =>
    if c.id = convId then
      { c with messages := c.messages.map fun m => if m.id = msgId then f m else m }
    else c

/-- The per-message body of `appendParts` (`useTypewriter.ts:212-220`):
concatenate the new parts to the matching message, recompute its cached
display text from the merged sequence, and set its status to
`streaming`. -/
def appendToMsg (msgId : String) (newParts : List Part) (m : ChatMessage) : ChatMessage :=
  if m.id = msgId then
    let merged := m.parts ++ newParts
    { m with parts := merged, displayText := some (partsToText merged),
             status := .streaming }
  else m

/-- The per-conversation body of `appendParts` (`useTypewriter.ts:210-221`):
update the matching conversation's messages and refresh its `updatedAt`. -/
def appendToConv (convId msgId : String) (newParts : List Part) (now : Nat)
    (c : Conversation) : Conversation :=
  if c.id = convId then
    { c with messages := c.messages.map (appendToMsg msgId newParts), updatedAt := now }
  else c

/-- `appendParts` (`useTypewriter.ts:208-224`): concatenate new parts to
the named message, recompute its display text, set its status to
`streaming`, and refresh the owning conversation's `updatedAt`. -/
def appendParts (convs : List Conversation) (convId msgId : String)
    (newParts : List Part) (now : Nat) : List Conversation :=
  convs.map (appendToConv convId msgId newParts now)

/-- `adoptContextId` (`useTypewriter.ts:306-314`): rename the conversation
currently tracked by `currentConvIdRef` to the gateway's context
identifier.  Returns the updated store and the new value of the mutable
ref.  `none`/`""` model a falsy `gatewayContextId`. -/
def adoptContextId (convs : List Conversation) (current : String)
    (gatewayContextId : Option String) : List Conversation × String :=
  match gatewayContextId with
  | none => (convs, current)
  | some g =>
    if g = "" ∨ g = current then (convs, current)
    else (convs.map fun c => if c.id = current then { c with id := g } else c, g)

/-- `truncate` (`useTypewriter.ts:109-111`): conversation titles derived
from the first user message. -/
def truncate (text : String) (max : Nat := 42) : String :=
  if text.length ≤ max then text
  else String.mk (text.toList.take (max - 1)) ++ "…"

/-- The new conversation created on first send (`useTypewriter.ts:278-287`),
given the two optimistic messages. -/
def mkNewConversation (localConvId agentId text : String)
    (userMsg agentMsg : ChatMessage) (now : Nat) : Conversation :=
  { id := localConvId, agentId := agentId, title := truncate text,
    messages := [userMsg, agentMsg], createdAt := now, updatedAt := now }

/-! ### The synchronous call (`sendMessage`, `a2aClient.ts:60-81`) and the
synchronous send path (`useTypewriter.ts:363-385`) -/

/-- Outcome of the underlying `fetch` of a synchronous call: a transport
failure (the rejection's error message), or an HTTP response with a
status code and a parsed JSON body. -/
inductive FetchOutcome where
  | netFail (msg : String) : FetchOutcome
  | resp (status : Nat) (body : Json) : FetchOutcome

/-- `res.ok`: status in the inclusive range 200-299. -/
def resOk (status : Nat) : Bool := 200 ≤ status && status ≤ 299

/-- `String(v)` as used implicitly by `new Error(v)` for a non-string
JSON-RPC error message (numbers keep their token). -/
def jsString : Json → String
  | .null => "null"
  | .bool b => toString b
  | .num tok => tok
  | .str s => s
  | .arr _ => ""
  | .obj _ => "[object Object]"

/-- The `message` carried by `new Error(json.error.message)`. -/
def jsErrMsg : Option Json → String
  | none => ""
  | some j => jsString j

/-- The decoded payload of a successful `message/send`.  The TS code casts
`json.result.parts` to `Part[]` and `json.result.contextId` to
`string | null` without checking; the model decodes well-formed parts and
a string context identifier, which is all the success path consumes. -/
structure SendResult where
  parts : List Part
  contextId : Option String

def partFromJson (j : Json) : Option Part :=
  match getField j "kind" with
  | some (.str "text") =>
    match getField j "text" with
    | some (.str t) => some (.text t)
    | _ => none
  | some (.str "data") => some (.data "" (getField j "data" |>.getD .null))
  | _ => none

def partsFromJson : Option Json → List Part
  | some (.arr xs) => xs.filterMap partFromJson
  | _ => []

/-- `sendMessage` (`a2aClient.ts:60-81`): throw on transport failure, on
`!res.ok` (message `"HTTP <status>"`), on a truthy JSON-RPC `error` field
(the server-reported message), or on a falsy `result`
(message `"Empty result"`). -/
def sendMessage (o : FetchOutcome) : Except String SendResult :=
  match o with
  | .netFail m => .error m
  | .resp status body =>
    if ¬ resOk status then .error ("HTTP " ++ toString status)
    else
      match getField body "error" with
      | some e =>
        if e.truthy then .error (jsErrMsg (getField e "message"))
        else sendMessageTail body
      | none => sendMessageTail body
where
  /-- Lines 75-80: `if (!json.result) throw ...; return {...}`. -/
  sendMessageTail (body : Json) : Except String SendResult :=
    match getField body "result" with
    | some r =>
      if r.truthy then
        .ok { parts := partsFromJson (getField r "parts"),
              contextId := match getField r "contextId" with
                           | some (.str s) => some s
                           | _ => none }
      else .error "Empty result"
    | none => .error "Empty result"

/-! ### Derived notions used in the statements of the verified properties -/

/-- Terminal callbacks: `onDone` and `onError`. -/
def Callback.isTerminal : Callback → Bool
  | .done _ => true
  | .error _ => true
  | _ => false

/-- Left-biased choice on optional context identifiers
(`cid && !firstContextId`: the first capture wins). -/
def orElseO : Option Json → Option Json → Option Json
  | some x, _ => some x
  | none, y => y

/-- The first present value in a list of optional context identifiers. -/
def firstSome : List (Option Json) → Option Json
  | [] => none
  | o :: os => orElseO o (firstSome os)

/-- The context identifier a single block contributes when nothing has
been captured yet. -/
def blockCid (b : List Char) : Option Json := (handleBlock none b).1

/-- The callbacks a single block dispatches. -/
def blockCbs (b : List Char) : List Callback := (handleBlock none b).2

/-- Concatenation of the callbacks of a sequence of blocks. -/
def catCbs : List (List Char) → List Callback
  | [] => []
  | b :: bs => blockCbs b ++ catCbs bs

/-- The decoded event of a block: the JSON payload of a block that is
nonblank, carries a nonempty non-sentinel `data:` body, and parses. -/
def blockEvent (b : List Char) : Option Json :=
  if trimList b = [] then none
  else
    let raw := rawOfBlock b
    if raw = [] ∨ raw = "[DONE]".toList then none
    else parseJson raw

/-- The context identifier an individual decoded event supplies: the
truthy `contextId` of its unwrapped payload (the envelope's `result`
object for a JSON-RPC 2.0 envelope with an object result, the payload
itself otherwise). -/
def eventCid (j : Json) : Option Json :=
  match getField (unwrapEnvelope j) "contextId" with
  | some v => if v.truthy then some v else none
  | none => none

/-- Whether the unwrapped payload carries one of the three recognized
event kinds. -/
def recognizedKind (j : Json) : Bool :=
  match getField (unwrapEnvelope j) "kind" with
  | some (.str "status-update") => true
  | some (.str "artifact-update") => true
  | some (.str "message") => true
  | _ => false

/-- The complete blocks cut out of a chunk sequence, together with the
final unconsumed buffer (the framing layer of the decoder, without event
processing). -/
def feedBlocks : List Char → List (List Char) → List (List Char) × List Char
  | buf, [] => ([], buf)
  | buf, c :: cs =>
    let p := initLast (splitOnNN (normalizeBuf (buf ++ c)))
    let r := feedBlocks p.2 cs
    (p.1 ++ r.1, r.2)

/-- Every complete block a gracefully ended stream processes, including
the end-of-stream flush of a nonblank remainder. -/
def allBlocks (chunks : List (List Char)) : List (List Char) :=
  let fb := feedBlocks [] chunks
  if trimList fb.2 = [] then fb.1
  else fb.1 ++ (initLast (splitOnNN (normalizeBuf (fb.2 ++ ['\n', '\n'])))).1

/-- The ordered decoded events of a gracefully ended stream. -/
def streamEvents (chunks : List (List Char)) : List Json :=
  (allBlocks chunks).filterMap blockEvent

/-- Concatenation of a chunk sequence (the byte sequence delivered). -/
def concatAll : List (List Char) → List Char
  | [] => []
  | c :: cs => c ++ concatAll cs

/-- Adjacent occurrences of two newline characters. -/
def hasNN : List Char → Bool
  | [] => false
  | [_] => false
  | c1 :: c2 :: rest => (c1 = '\n' && c2 = '\n') || hasNN (c2 :: rest)

/-- `s.split('\n\n')` re-joined with the separator. -/
def joinNN : List (List Char) → List Char
  | [] => []
  | [x] => x
  | x :: y :: rest => x ++ '\n' :: '\n' :: joinNN (y :: rest)

/-- A chunking never separates a CR from an immediately following LF:
no chunk ends with `'\r'` while the rest of the stream begins with
`'\n'`. -/
def noSplitCRLF : List (List Char) → Bool
  | [] => true
  | c :: rest =>
    if c.getLast? = some '\r' ∧ (concatAll rest).head? = some '\n' then false
    else noSplitCRLF rest

/-- Erase the identity field of a conversation (to state that an
operation changes nothing but identities). -/
def eraseConvId (c : Conversation) : Conversation := { c with id := "" }

/-- Erase the `updatedAt` timestamp of a conversation. -/
def clearConvTime (c : Conversation) : Conversation := { c with updatedAt := 0 }

/-- Erase the `updatedAt` timestamps of a store (to state properties of
the content, which excludes the refresh timestamps). -/
def clearUpdatedAt (convs : List Conversation) : List Conversation :=
  convs.map clearConvTime

/-! ### Concrete example data used by counterexamples and witnesses -/

def exMsg : ChatMessage :=
  { id := "m1", role := "agent", parts := [], status := .done, timestamp := 0 }

def exConv : Conversation :=
  { id := "c", agentId := "a", title := "t", messages := [exMsg],
    createdAt := 0, updatedAt := 0 }

def convA : Conversation :=
  { id := "A", agentId := "a", title := "ta", messages := [],
    createdAt := 0, updatedAt := 0 }

def convB : Conversation :=
  { id := "B", agentId := "a", title := "tb", messages := [],
    createdAt := 0, updatedAt := 0 }

def exAgentMsg : ChatMessage :=
  { id := "am", role := "agent", parts := [], displayText := some "",
    status := .sending, timestamp := 0 }

def exConvSync : Conversation :=
  { id := "c1", agentId := "a", title := "t", messages := [exAgentMsg],
    createdAt := 0, updatedAt := 0 }

/-- A streamed A2A message event carrying one part. -/
def exJsonMsgA : String := "\x7b\"kind\":\"message\",\"parts\":[\"a\"]\x7d"

def exJsonMsgB : String := "\x7b\"kind\":\"message\",\"parts\":[\"b\"]\x7d"

/-- Two `data:` lines separated by CRLF, delivered whole: a single block
whose joined body is not valid JSON. -/
def exWhole : List Char := ("data: " ++ exJsonMsgA ++ "\r\ndata: " ++ exJsonMsgB).toList

/-- The same characters, split between the CR and the LF. -/
def exChunkA : List Char := ("data: " ++ exJsonMsgA ++ "\r").toList

def exChunkB : List Char := ("\ndata: " ++ exJsonMsgB).toList

/-- A chunking of a well-formed stream that splits inside a `data:`
line (but not inside a CRLF pair). -/
def exGoodSplit : List (List Char) :=
  [("data: \x7b\"kind\":\"message\",\"par").toList, ("ts\":[\"a\"]\x7d\n\n").toList]

/-- A payload that is a JSON-RPC envelope with an object result and a
top-level `contextId`. -/
def exEnvTopCid : Json :=
  .obj [("jsonrpc", .str "2.0"), ("contextId", .str "X"),
        ("result", .obj [("kind", .str "status-update")])]

def exChunkTopCid : List Char :=
  ("data: \x7b\"jsonrpc\":\"2.0\",\"contextId\":\"X\",\"result\":\x7b\"kind\":\"status-update\"\x7d\x7d\n\n").toList

/-- A recognized `status-update`/`working` payload carrying no context
identifier. -/
def exEventWorking : Json :=
  .obj [("kind", .str "status-update"), ("status", .obj [("state", .str "working")])]

def exChunkWorking : List Char :=
  ("data: \x7b\"kind\":\"status-update\",\"status\":\x7b\"state\":\"working\"\x7d\x7d\n\n").toList

/-- A payload of unrecognized kind carrying a context identifier. -/
def exUnknownKind : Json := .obj [("kind", .str "task"), ("contextId", .str "c7")]

def exChunkUnknownKind : List Char :=
  ("data: \x7b\"kind\":\"task\",\"contextId\":\"c7\"\x7d\n\n").toList

/-- A malformed block and a valid one. -/
def exBadBlock : List Char := ("data: \x7boops").toList

def exGoodBlock : List Char := ("data: " ++ exJsonMsgA).toList

/-- The error updater applied to the agent message when a synchronous call
fails (`useTypewriter.ts:374-381`). -/
def errUpdater (msg : String) (m : ChatMessage) : ChatMessage :=
  { m with parts := [.text ("Error: " ++ msg)],
           displayText := some ("Error: " ++ msg),
           status := .error }

/-- The synchronous send path (`useTypewriter.ts:363-385`): await the
call; on success adopt the gateway's context identifier and write the
returned parts into the agent message (status `streaming`); on failure
write `"Error: <message>"` with status `error` (no adoption, no retry).
Returns the updated store and the final `currentConvIdRef` value. -/
def syncTurn (convs : List Conversation) (current agentMsgId : String)
    (o : FetchOutcome) : List Conversation × String :=
  match sendMessage o with
  | .ok result =>
    let adopted := adoptContextId convs current result.contextId
    let fullText := partsToText result.parts
    (updateMessage adopted.1 adopted.2 agentMsgId
       (fun m => { m with parts := result.parts, displayText := some fullText,
                          status := .streaming }),
     adopted.2)
  | .error err =>
    (updateMessage convs current agentMsgId (errUpdater err), current)

/-! ## Theorems -/

/-! ### C10 — conversation titles -/

/-- C10: for every new conversation created by `send`, the title equals the
trimmed user text when that text is at most 42 characters long, and
otherwise equals the first 41 characters followed by `'…'`; hence every
conversation title is at most 42 characters long.  (`text` is the trimmed
input; `send` passes `input.trim()`.) -/
theorem claim_C10 (localConvId agentId text : String)
    (userMsg agentMsg : ChatMessage) (now : Nat) :
    (mkNewConversation localConvId agentId text userMsg agentMsg now).title
      = (if text.length ≤ 42 then text else String.mk (text.toList.take 41) ++ "…") ∧
    (mkNewConversation localConvId agentId text userMsg agentMsg now).title.length ≤ 42 := by
  refine ⟨rfl, ?_⟩
  show (truncate text).length ≤ 42
  unfold truncate
  split
  · omega
  · rw [String.length_append]
    have h1 : (String.mk (text.toList.take (42 - 1))).length
        = (text.toList.take (42 - 1)).length := rfl
    have h2 : ("…" : String).length = 1 := rfl
    have h3 := List.length_take_le (42 - 1) text.toList
    omega

/-! ### C5 — associativity of `appendParts` -/

/-- C5: appending part lists `A` then `B` to a message yields the same
final message content — parts sequence, cached display string, status —
as appending `A ++ B` once.  Only the conversation's `updatedAt` refresh
timestamp (excluded from "message content" by the claim) differs, so the
stores agree after erasing `updatedAt`. -/
theorem claim_C5 (convs : List Conversation) (convId msgId : String)
    (A B : List Part) (t1 t2 t3 : Nat) :
    clearUpdatedAt (appendParts (appendParts convs convId msgId A t1) convId msgId B t2)
      = clearUpdatedAt (appendParts convs convId msgId (A ++ B) t3) := by
  have hmsg : ∀ m, appendToMsg msgId B (appendToMsg msgId A m)
      = appendToMsg msgId (A ++ B) m := by
    intro m
    unfold appendToMsg
    by_cases hm : m.id = msgId
    · simp [hm, List.append_assoc]
    · simp [hm]
  have hconv : ∀ c, clearConvTime (appendToConv convId msgId B t2
        (appendToConv convId msgId A t1 c))
      = clearConvTime (appendToConv convId msgId (A ++ B) t3 c) := by
    intro c
    unfold appendToConv clearConvTime
    by_cases hc : c.id = convId
    · have hmapped : c.messages.map (fun m => appendToMsg msgId B (appendToMsg msgId A m))
          = c.messages.map (appendToMsg msgId (A ++ B)) :=
        List.map_congr_left fun m _ => hmsg m
      simp [hc, List.map_map, Function.comp_def, hmapped]
    · simp [hc]
  unfold clearUpdatedAt appendParts
  simp only [List.map_map]
  exact List.map_congr_left fun c _ => hconv c

/-! ### C7 — `appendParts` on an absent conversation or message -/

/-- C7 counterexample: when the named conversation exists but the named
message does not, `appendParts` is not a no-op — it refreshes the
conversation's `updatedAt` timestamp. -/
theorem claim_C7_counterexample :
    appendParts [exConv] "c" "m2" [Part.text "x"] 1 ≠ [exConv] := by
  intro h
  have h3 : (appendParts [exConv] "c" "m2" [Part.text "x"] 1).map Conversation.updatedAt
      = [1] := rfl
  rw [h] at h3
  have h4 : ([exConv].map Conversation.updatedAt) = [0] := rfl
  rw [h4] at h3
  exact absurd h3 (by simp)

/-- C7 amended: `appendParts` leaves the store entirely unchanged when the
named conversation is absent; when the conversation is present but the
named message is absent from it, every message is unchanged but the
matching conversation's `updatedAt` timestamp is refreshed (so the
operation is not a strict no-op in that case). -/
theorem claim_C7_amended (convs : List Conversation) (convId msgId : String)
    (ps : List Part) (now : Nat) :
    (convId ∉ convs.map Conversation.id →
       appendParts convs convId msgId ps now = convs) ∧
    ((∀ c ∈ convs, c.id = convId → msgId ∉ c.messages.map ChatMessage.id) →
       appendParts convs convId msgId ps now
         = convs.map fun c => if c.id = convId then { c with updatedAt := now } else c) := by
  constructor
  · intro habs
    unfold appendParts
    have h : ∀ c ∈ convs, appendToConv convId msgId ps now c = c := by
      intro c hc
      have hne : c.id ≠ convId := fun he =>
        habs (he ▸ List.mem_map_of_mem Conversation.id hc)
      unfold appendToConv
      simp [hne]
    calc convs.map (appendToConv convId msgId ps now)
        = convs.map id := List.map_congr_left fun c hc => h c hc
      _ = convs := List.map_id convs
  · intro habs
    unfold appendParts
    apply List.map_congr_left
    intro c hc
    unfold appendToConv
    by_cases hcid : c.id = convId
    · have hmsg : ∀ m ∈ c.messages, appendToMsg msgId ps m = m := by
        intro m hm
        have hne : m.id ≠ msgId := fun he =>
          (habs c hc hcid) (he ▸ List.mem_map_of_mem ChatMessage.id hm)
        unfold appendToMsg
        simp [hne]
      have hmm : c.messages.map (appendToMsg msgId ps) = c.messages := by
        calc c.messages.map (appendToMsg msgId ps)
            = c.messages.map id := List.map_congr_left fun m hm => hmsg m hm
          _ = c.messages := List.map_id c.messages
      simp [hcid, hmm]
    · simp [hcid]

/-- C7 amended, witnessed at a concrete store: the conversation `"c"`
exists, the message `"m2"` does not, and the result refreshes only
`updatedAt`. -/
theorem claim_C7_amended_witness :
    appendParts [exConv] "c" "m2" [Part.text "x"] 1 = [{ exConv with updatedAt := 1 }] := by
  have h := (claim_C7_amended [exConv] "c" "m2" [Part.text "x"] 1).2 (by
    intro c hc _
    simp only [List.mem_singleton] at hc
    subst hc
    simp [exConv, exMsg])
  rw [h]
  rfl

/-! ### C3 — identifier adoption (`adoptContextId`) -/

/-- C3 counterexample: on a store with distinct identities `"B"` and
`"A"`, adopting `"B"` for the conversation currently identified `"A"`
is applied (the claim says it is treated as already-adopted and not
applied) and produces two conversations identified `"B"`, violating
identity uniqueness. -/
theorem claim_C3_counterexample :
    (([convB, convA].map Conversation.id).Nodup) ∧
    ((adoptContextId [convB, convA] "A" (some "B")).1.map Conversation.id = ["B", "B"]) ∧
    ¬ ((adoptContextId [convB, convA] "A" (some "B")).1.map Conversation.id).Nodup := by
  refine ⟨by decide, rfl, by decide⟩

/-- C3 amended: `adoptContextId` is a no-op for a null, empty or unchanged
gateway identifier; it is a no-op on the store when no conversation
matches the current identifier; when applied it changes nothing but
identity fields; and it preserves identity uniqueness provided the new
identifier does not already identify an existing conversation.  (The
code performs no collision check: adopting an identifier that already
names a different conversation duplicates it, as the counterexample
shows.) -/
theorem claim_C3_amended (convs : List Conversation) (cur g : String) :
    (adoptContextId convs cur none = (convs, cur)) ∧
    (adoptContextId convs cur (some "") = (convs, cur)) ∧
    (adoptContextId convs cur (some cur) = (convs, cur)) ∧
    (cur ∉ convs.map Conversation.id → (adoptContextId convs cur (some g)).1 = convs) ∧
    ((adoptContextId convs cur (some g)).1.map eraseConvId = convs.map eraseConvId) ∧
    ((convs.map Conversation.id).Nodup → g ∉ convs.map Conversation.id →
       ((adoptContextId convs cur (some g)).1.map Conversation.id).Nodup) := by
  refine ⟨rfl, by simp [adoptContextId], by simp [adoptContextId], ?_, ?_, ?_⟩
  · intro habs
    unfold adoptContextId
    by_cases hg : g = "" ∨ g = cur
    · simp [hg]
    · simp only [hg, if_neg hg]
      calc convs.map (fun c => if c.id = cur then { c with id := g } else c)
          = convs.map id := List.map_congr_left (by
            intro c hc
            have hne : c.id ≠ cur := fun he =>
              habs (he ▸ List.mem_map_of_mem Conversation.id hc)
            simp [hne])
        _ = convs := List.map_id convs
  · unfold adoptContextId
    by_cases hg : g = "" ∨ g = cur
    · simp [hg]
    · simp only [if_neg hg, List.map_map]
      apply List.map_congr_left
      intro c _
      by_cases hc : c.id = cur
      · simp [hc, eraseConvId]
      · simp [hc]
  · intro hnd habs
    unfold adoptContextId
    by_cases hg : g = "" ∨ g = cur
    · simpa [hg] using hnd
    · simp only [if_neg hg, List.map_map]
      have heq : convs.map (fun c => Conversation.id
            (if c.id = cur then { c with id := g } else c))
          = (convs.map Conversation.id).map (fun i => if i = cur then g else i) := by
        rw [List.map_map]
        apply List.map_congr_left
        intro c _
        by_cases hc : c.id = cur
        · simp [hc]
        · simp [hc]
      rw [show (convs.map (Conversation.id ∘ fun c =>
            if c.id = cur then { c with id := g } else c))
          = convs.map (fun c => Conversation.id
            (if c.id = cur then { c with id := g } else c)) from rfl, heq]
      apply hnd.map_on
      intro x hx y hy hxy
      by_cases hxc : x = cur <;> by_cases hyc : y = cur
      · rw [hxc, hyc]
      · rw [if_pos hxc, if_neg hyc] at hxy
        exact absurd (hxy ▸ hy) habs
      · rw [if_neg hxc, if_pos hyc] at hxy
        exact absurd (hxy ▸ hx) habs
      · rwa [if_neg hxc, if_neg hyc] at hxy

/-- C3 amended, witnessed at concrete stores: an absent current identifier
leaves the store unchanged, and adopting a fresh identifier preserves
uniqueness. -/
theorem claim_C3_amended_witness :
    ((adoptContextId [convB] "A" (some "Z")).1 = [convB]) ∧
    ((adoptContextId [convB, convA] "A" (some "Z")).1.map Conversation.id).Nodup := by
  constructor
  · exact (claim_C3_amended [convB] "A" "Z").2.2.2.1 (by decide)
  · exact (claim_C3_amended [convB, convA] "A" "Z").2.2.2.2.2 (by decide) (by decide)

/-! ### C6 — synchronous-call failure handling -/

/-- C6: whenever the synchronous call fails — transport failure,
non-success HTTP status, a JSON-RPC `error` field, or a missing/falsy
`result` — the turn applies exactly one update to the store, which sets
the agent message's parts and display text to `"Error: <message>"` and
its status to `error`, leaving everything else unchanged; and an HTTP 500
response produces exactly the message `"HTTP 500"`, hence content
`"Error: HTTP 500"`.  No retry exists in the model: the failing outcome
is consumed by this single update. -/
theorem claim_C6 (convs : List Conversation) (current agentMsgId : String)
    (o : FetchOutcome) (m : String) (herr : sendMessage o = .error m) :
    (syncTurn convs current agentMsgId o
       = (updateMessage convs current agentMsgId (errUpdater m), current)) ∧
    (∀ body, sendMessage (.resp 500 body) = .error "HTTP 500") ∧
    (∀ c ∈ (syncTurn convs current agentMsgId o).1, ∀ msg ∈ c.messages,
       c.id = current → msg.id = agentMsgId →
         msg.parts = [Part.text ("Error: " ++ m)] ∧
         msg.displayText = some ("Error: " ++ m) ∧
         msg.status = .error) := by
  have hmain : syncTurn convs current agentMsgId o
      = (updateMessage convs current agentMsgId (errUpdater m), current) := by
    unfold syncTurn
    rw [herr]
  refine ⟨hmain, fun body => rfl, ?_⟩
  intro c hc msg hmsg hcid hmid
  rw [hmain] at hc
  unfold updateMessage at hc
  obtain ⟨c0, hc0, hceq⟩ := List.mem_map.1 hc
  by_cases h0 : c0.id = current
  · rw [if_pos h0] at hceq
    subst hceq
    simp only at hmsg
    obtain ⟨m0, hm0, hmeq⟩ := List.mem_map.1 hmsg
    by_cases hm0id : m0.id = agentMsgId
    · rw [if_pos hm0id] at hmeq
      subst hmeq
      exact ⟨rfl, rfl, rfl⟩
    · rw [if_neg hm0id] at hmeq
      subst hmeq
      exact absurd hmid hm0id
  · rw [if_neg h0] at hceq
    subst hceq
    exact absurd hcid h0

/-- C6 witnessed at a concrete turn: `sendMessage` rejecting with an
HTTP 500 yields agent-message content `"Error: HTTP 500"`, status
`error`. -/
theorem claim_C6_witness :
    syncTurn [exConvSync] "c1" "am" (.resp 500 (.obj []))
      = ([{ exConvSync with messages := [errUpdater "HTTP 500" exAgentMsg] }], "c1") := by
  have h := (claim_C6 [exConvSync] "c1" "am" (.resp 500 (.obj [])) "HTTP 500" rfl).1
  rw [h]
  rfl

/-! ### Structural lemmas about the stream decoder -/

/-- `dispatchSseEvent` fires either nothing, a single `onWorking`, or a
single `onPart`. -/
theorem dispatchSseEvent_shape (j : Json) :
    dispatchSseEvent j = [] ∨ dispatchSseEvent j = [.working] ∨
      ∃ p, dispatchSseEvent j = [.part p] := by
  simp only [dispatchSseEvent]
  split
  · exact Or.inl rfl
  · split
    · split
      · split
        · exact Or.inr (Or.inr ⟨_, rfl⟩)
        · exact Or.inr (Or.inl rfl)
      · exact Or.inl rfl
    · split
      · exact Or.inr (Or.inr ⟨_, rfl⟩)
      · exact Or.inl rfl
    · split
      · exact Or.inr (Or.inr ⟨_, rfl⟩)
      · exact Or.inl rfl
    · exact Or.inl rfl

/-- A block never fires a terminal callback. -/
theorem handleBlock_nonterminal (fc : Option Json) (b : List Char) :
    ∀ x ∈ (handleBlock fc b).2, x.isTerminal = false := by
  intro x hx
  simp only [handleBlock] at hx
  split at hx
  · simp at hx
  · split at hx
    · simp at hx
    · split at hx
      · simp at hx
      · rename_i parsed heq
        have hx2 : x ∈ dispatchSseEvent parsed := hx
        rcases dispatchSseEvent_shape parsed with h | h | ⟨p, h⟩
        · rw [h] at hx2
          simp at hx2
        · rw [h] at hx2
          simp only [List.mem_singleton] at hx2
          subst hx2
          rfl
        · rw [h] at hx2
          simp only [List.mem_singleton] at hx2
          subst hx2
          rfl

/-- `runBlocks` never fires a terminal callback. -/
theorem runBlocks_nonterminal (bs : List (List Char)) :
    ∀ fc, ∀ x ∈ (runBlocks fc bs).2, x.isTerminal = false := by
  induction bs with
  | nil => intro fc x hx; simp [runBlocks] at hx
  | cons b bs ih =>
    intro fc x hx
    unfold runBlocks at hx
    simp only [List.mem_append] at hx
    rcases hx with hx | hx
    · exact handleBlock_nonterminal fc b x hx
    · exact ih _ x hx

/-- `processBuffer` never fires a terminal callback. -/
theorem processBuffer_nonterminal (st : DecState) :
    ∀ x ∈ (processBuffer st).2, x.isTerminal = false :=
  fun x hx => runBlocks_nonterminal _ _ x hx

/-- Chunk feeding never fires a terminal callback. -/
theorem feedChunks_nonterminal (cs : List (List Char)) :
    ∀ st, ∀ x ∈ (feedChunks st cs).2, x.isTerminal = false := by
  induction cs with
  | nil => intro st x hx; simp [feedChunks] at hx
  | cons c cs ih =>
    intro st x hx
    unfold feedChunks at hx
    simp only [List.mem_append] at hx
    rcases hx with hx | hx
    · exact processBuffer_nonterminal _ x hx
    · exact ih _ x hx

/-- The end-of-stream flush never fires a terminal callback. -/
theorem flushEOS_nonterminal (st : DecState) :
    ∀ x ∈ (flushEOS st).2, x.isTerminal = false := by
  intro x hx
  unfold flushEOS at hx
  split at hx
  · simp at hx
  · exact processBuffer_nonterminal _ x hx

/-- The read loop, never cancelled, on a gracefully ending stream:
all chunk callbacks, then the flush callbacks, then exactly `onDone`. -/
theorem runStreamGo_none_eof (chunks : List (List Char)) (st : DecState) :
    runStreamGo chunks st .eof none
      = (feedChunks st chunks).2 ++ (flushEOS (feedChunks st chunks).1).2
          ++ [.done (flushEOS (feedChunks st chunks).1).1.firstCid] := by
  induction chunks generalizing st with
  | nil => rfl
  | cons c rest ih =>
    show (feedChunk st c).2 ++ runStreamGo rest (feedChunk st c).1 .eof none = _
    rw [ih]
    have hfc : feedChunks st (c :: rest)
        = ((feedChunks (feedChunk st c).1 rest).1,
           (feedChunk st c).2 ++ (feedChunks (feedChunk st c).1 rest).2) := rfl
    rw [hfc]
    simp [List.append_assoc]

/-- The read loop, never cancelled, on a stream that fails after its
chunks: all chunk callbacks, then exactly `onError`. -/
theorem runStreamGo_none_fail (chunks : List (List Char)) (st : DecState) (m : String) :
    runStreamGo chunks st (.fail m) none = (feedChunks st chunks).2 ++ [.error m] := by
  induction chunks generalizing st with
  | nil => rfl
  | cons c rest ih =>
    show (feedChunk st c).2 ++ runStreamGo rest (feedChunk st c).1 (.fail m) none = _
    rw [ih]
    have hfc : feedChunks st (c :: rest)
        = ((feedChunks (feedChunk st c).1 rest).1,
           (feedChunk st c).2 ++ (feedChunks (feedChunk st c).1 rest).2) := rfl
    rw [hfc]
    simp [List.append_assoc]

/-- The read loop with the abort flag set during the `(k+1)`-th pending
read: exactly the callbacks of the first `k` chunks, nothing after. -/
theorem runStreamGo_cancel (chunks : List (List Char)) (st : DecState)
    (ending : StreamEnd) (k : Nat) (hk : k ≤ chunks.length) :
    runStreamGo chunks st ending (some k) = (feedChunks st (chunks.take k)).2 := by
  induction chunks generalizing st k with
  | nil =>
    have hk0 : k = 0 := Nat.le_zero.mp hk
    subst hk0
    cases ending <;> rfl
  | cons c rest ih =>
    match k with
    | 0 => rfl
    | k + 1 =>
      show (feedChunk st c).2
          ++ runStreamGo rest (feedChunk st c).1 ending (decCancel (some (k + 1))) = _
      have hdec : decCancel (some (k + 1)) = some k := rfl
      rw [hdec, ih (feedChunk st c).1 k (by simpa using hk)]
      rfl

/-! ### C2 — terminal-callback discipline and cancellation -/

/-- C2: for every stream (any chunk sequence, any ending): without
cancellation the trace ends in exactly one terminal callback
(`onDone` or `onError`), which occurs once and last; with cancellation
effective before the stream's own end (`cancel()` invoked while the
`(k+1)`-th read is pending, `k ≤` number of chunks), the trace is exactly
the callbacks of the first `k` chunks — no callback of any kind fires
after cancellation, even for bytes already received and buffered. -/
theorem claim_C2 (chunks : List (List Char)) (ending : StreamEnd) (k : Nat)
    (hk : k ≤ chunks.length) :
    (∃ pre t, runStream chunks ending none = pre ++ [t] ∧ t.isTerminal = true ∧
       ∀ x ∈ pre, x.isTerminal = false) ∧
    (runStream chunks ending (some k) = (feedChunks initState (chunks.take k)).2 ∧
       ∀ x ∈ runStream chunks ending (some k), x.isTerminal = false) := by
  constructor
  · cases ending with
    | eof =>
      refine ⟨(feedChunks initState chunks).2 ++ (flushEOS (feedChunks initState chunks).1).2,
        .done (flushEOS (feedChunks initState chunks).1).1.firstCid, ?_, rfl, ?_⟩
      · show runStreamGo chunks initState .eof none = _
        rw [runStreamGo_none_eof, List.append_assoc]
      · intro x hx
        rcases List.mem_append.1 hx with hx | hx
        · exact feedChunks_nonterminal _ _ x hx
        · exact flushEOS_nonterminal _ x hx
    | fail m =>
      exact ⟨(feedChunks initState chunks).2, .error m,
        runStreamGo_none_fail chunks initState m, rfl,
        fun x hx => feedChunks_nonterminal _ _ x hx⟩
  · have h2 : runStream chunks ending (some k)
        = (feedChunks initState (chunks.take k)).2 :=
      runStreamGo_cancel chunks initState ending k hk
    exact ⟨h2, fun x hx => feedChunks_nonterminal _ _ x (by rwa [h2] at hx)⟩

/-- C2 witnessed on a concrete two-chunk stream cancelled during the
second read. -/
theorem claim_C2_witness :
    (1 ≤ ([exChunkA, exChunkB] : List (List Char)).length) ∧
    ((∃ pre t, runStream [exChunkA, exChunkB] StreamEnd.eof none = pre ++ [t] ∧
        t.isTerminal = true ∧ ∀ x ∈ pre, x.isTerminal = false) ∧
     (runStream [exChunkA, exChunkB] StreamEnd.eof (some 1)
        = (feedChunks initState ([exChunkA, exChunkB].take 1)).2 ∧
      ∀ x ∈ runStream [exChunkA, exChunkB] StreamEnd.eof (some 1),
        x.isTerminal = false)) :=
  ⟨by simp, claim_C2 [exChunkA, exChunkB] StreamEnd.eof 1 (by simp)⟩

/-! ### C8 — malformed blocks are skipped, later blocks still decoded -/

/-- C8: a block whose joined `data:` body fails to parse contributes no
callback and no context identifier, and removing it from a block sequence
leaves the processing of every other block — in particular every
subsequent valid block — unchanged.  (Stream termination is unaffected:
terminal callbacks are emitted only by the read loop, never by block
processing, per `claim_C2`.) -/
theorem claim_C8 (fc : Option Json) (pre suf : List (List Char)) (bad : List Char)
    (hbad : parseJson (rawOfBlock bad) = none) :
    handleBlock fc bad = (fc, []) ∧
    runBlocks fc (pre ++ bad :: suf) = runBlocks fc (pre ++ suf) := by
  have hskip : ∀ fc1, handleBlock fc1 bad = (fc1, []) := by
    intro fc1
    simp only [handleBlock, hbad]
    split
    · rfl
    · split
      · rfl
      · rfl
  have hcons : ∀ fc1 b bs, runBlocks fc1 (b :: bs)
      = ((runBlocks (handleBlock fc1 b).1 bs).1,
         (handleBlock fc1 b).2 ++ (runBlocks (handleBlock fc1 b).1 bs).2) :=
    fun _ _ _ => rfl
  refine ⟨hskip fc, ?_⟩
  induction pre generalizing fc with
  | nil =>
    show runBlocks fc (bad :: suf) = _
    rw [hcons, hskip fc]
    simp
  | cons p pre ih =>
    show runBlocks fc (p :: (pre ++ bad :: suf)) = runBlocks fc (p :: (pre ++ suf))
    rw [hcons, hcons, ih]

/-- C8 witnessed on concrete blocks: `data: {oops` is skipped and the
following valid block still dispatches its part. -/
theorem claim_C8_witness :
    (parseJson (rawOfBlock exBadBlock) = none) ∧
    (handleBlock none exBadBlock = (none, []) ∧
     runBlocks none ([exGoodBlock] ++ exBadBlock :: [exGoodBlock])
       = runBlocks none ([exGoodBlock] ++ [exGoodBlock])) :=
  ⟨rfl, claim_C8 none [exGoodBlock] [exGoodBlock] exBadBlock rfl⟩

/-! ### Capture of the canonical context identifier -/

theorem orElseO_none_left (y : Option Json) : orElseO none y = y := rfl

theorem orElseO_none_right (o : Option Json) : orElseO o none = o := by
  cases o <;> rfl

theorem orElseO_assoc (a b c : Option Json) :
    orElseO (orElseO a b) c = orElseO a (orElseO b c) := by
  cases a <;> rfl

/-- Once captured, the first context identifier never changes. -/
theorem captureCid_some (x j : Json) : captureCid (some x) j = some x := by
  simp only [captureCid]
  split
  · split
    · rfl
    · rfl
  · rfl

/-- With nothing captured yet, capture takes exactly the truthy
`contextId` of the unwrapped payload — independently of the payload's
kind. -/
theorem captureCid_none_eq (j : Json) : captureCid none j = eventCid j := by
  simp only [captureCid, eventCid]
  split
  · rfl
  · rename_i h
    cases j with
    | null => rfl
    | bool b => cases b <;> rfl
    | num t => rfl
    | str s => rfl
    | arr xs => exact absurd rfl h
    | obj fs => exact absurd rfl h

theorem handleBlock_fst (fc : Option Json) (b : List Char) :
    (handleBlock fc b).1 = orElseO fc (blockCid b) := by
  cases fc with
  | none => rfl
  | some x =>
    show (handleBlock (some x) b).1 = some x
    simp only [handleBlock]
    split
    · rfl
    · split
      · rfl
      · split
        · rfl
        · exact captureCid_some x _

theorem handleBlock_snd (fc : Option Json) (b : List Char) :
    (handleBlock fc b).2 = blockCbs b := by
  cases fc with
  | none => rfl
  | some x =>
    show (handleBlock (some x) b).2 = (handleBlock none b).2
    simp only [handleBlock]
    split
    · rfl
    · split
      · rfl
      · split
        · rfl
        · rfl

/-- `runBlocks` captures the first context identifier any block supplies
and concatenates all block callbacks. -/
theorem runBlocks_char (bs : List (List Char)) : ∀ fc,
    runBlocks fc bs = (orElseO fc (firstSome (bs.map blockCid)), catCbs bs) := by
  induction bs with
  | nil => intro fc; cases fc <;> rfl
  | cons b bs ih =>
    intro fc
    show ((runBlocks (handleBlock fc b).1 bs).1,
          (handleBlock fc b).2 ++ (runBlocks (handleBlock fc b).1 bs).2) = _
    rw [ih (handleBlock fc b).1, handleBlock_fst, handleBlock_snd]
    simp only
    rw [orElseO_assoc]
    rfl

theorem catCbs_append (xs ys : List (List Char)) :
    catCbs (xs ++ ys) = catCbs xs ++ catCbs ys := by
  induction xs with
  | nil => rfl
  | cons x xs ih =>
    show blockCbs x ++ catCbs (xs ++ ys) = (blockCbs x ++ catCbs xs) ++ catCbs ys
    rw [ih, List.append_assoc]

theorem firstSome_append (xs ys : List (Option Json)) :
    firstSome (xs ++ ys) = orElseO (firstSome xs) (firstSome ys) := by
  induction xs with
  | nil => rfl
  | cons x xs ih =>
    show orElseO x (firstSome (xs ++ ys)) = orElseO (orElseO x (firstSome xs)) (firstSome ys)
    rw [ih, orElseO_assoc]

theorem processBuffer_char (st : DecState) :
    processBuffer st
      = ({ buffer := (initLast (splitOnNN (normalizeBuf st.buffer))).2,
           firstCid := orElseO st.firstCid (firstSome
             ((initLast (splitOnNN (normalizeBuf st.buffer))).1.map blockCid)) },
         catCbs (initLast (splitOnNN (normalizeBuf st.buffer))).1) := by
  simp only [processBuffer]
  rw [runBlocks_char]

/-- The chunk-feeding loop is the block-cutting layer followed by block
processing. -/
theorem feedChunks_char (cs : List (List Char)) : ∀ st,
    feedChunks st cs
      = ({ buffer := (feedBlocks st.buffer cs).2,
           firstCid := orElseO st.firstCid
             (firstSome ((feedBlocks st.buffer cs).1.map blockCid)) },
         catCbs (feedBlocks st.buffer cs).1) := by
  induction cs with
  | nil =>
    intro st
    show (st, []) = _
    rw [show feedBlocks st.buffer [] = ([], st.buffer) from rfl,
      show firstSome (([] : List (List Char)).map blockCid) = none from rfl,
      orElseO_none_right]
    rfl
  | cons c cs ih =>
    intro st
    show ((feedChunks (feedChunk st c).1 cs).1,
          (feedChunk st c).2 ++ (feedChunks (feedChunk st c).1 cs).2) = _
    rw [show feedChunk st c = processBuffer { st with buffer := st.buffer ++ c } from rfl,
      processBuffer_char, ih]
    rw [show feedBlocks st.buffer (c :: cs)
        = ((initLast (splitOnNN (normalizeBuf (st.buffer ++ c)))).1
             ++ (feedBlocks (initLast (splitOnNN (normalizeBuf (st.buffer ++ c)))).2 cs).1,
           (feedBlocks (initLast (splitOnNN (normalizeBuf (st.buffer ++ c)))).2 cs).2) from rfl]
    simp only [List.map_append, firstSome_append, catCbs_append, orElseO_assoc]

/-- A block's contribution to the captured identifier is the truthy
`contextId` of the unwrapped payload of its decoded event, if any. -/
theorem blockCid_eq (b : List Char) :
    blockCid b = (blockEvent b).bind eventCid := by
  show (handleBlock none b).1 = _
  simp only [handleBlock, blockEvent]
  split
  · rfl
  · split
    · rfl
    · split
      · rename_i heq
        rw [heq]
        rfl
      · rename_i parsed heq
        rw [heq]
        show captureCid none parsed = (some parsed).bind eventCid
        rw [captureCid_none_eq]
        rfl

theorem firstSome_filterMap (bs : List (List Char)) :
    firstSome (bs.map blockCid)
      = firstSome ((bs.filterMap blockEvent).map eventCid) := by
  induction bs with
  | nil => rfl
  | cons b bs ih =>
    rw [List.map_cons, show firstSome (blockCid b :: bs.map blockCid)
        = orElseO (blockCid b) (firstSome (bs.map blockCid)) from rfl, ih, blockCid_eq]
    cases hb : blockEvent b with
    | none =>
      rw [List.filterMap_cons_none hb]
      rfl
    | some e =>
      rw [List.filterMap_cons_some hb]
      rfl

/-- The full trace of a gracefully ended stream: all block callbacks in
order, then `onDone` carrying the first context identifier supplied by
any decoded event. -/
theorem decodeStream_events (chunks : List (List Char)) :
    decodeStream chunks
      = catCbs (allBlocks chunks)
          ++ [.done (firstSome ((streamEvents chunks).map eventCid))] := by
  unfold streamEvents
  rw [← firstSome_filterMap]
  show runStreamGo chunks initState .eof none = _
  rw [runStreamGo_none_eof, feedChunks_char]
  dsimp only [initState]
  rw [orElseO_none_left]
  unfold flushEOS allBlocks
  dsimp only
  split
  · simp
  · rw [processBuffer_char]
    dsimp only
    rw [List.map_append, firstSome_append, catCbs_append]

/-! ### C4 — which context identifier reaches `onDone` -/

/-- C4 counterexample: the stream's only decoded event is a JSON-RPC 2.0
envelope with an object `result` and a non-null `contextId` at the
envelope's top level.  The claim says that identifier (the first non-null
one observed, appearing "before unwrapping at the top level of the
JSON-RPC envelope") is passed to `onDone`; the decoder consults only the
unwrapped `result` object in that situation and passes `null`. -/
theorem claim_C4_counterexample :
    streamEvents [exChunkTopCid] = [exEnvTopCid] ∧
    getField exEnvTopCid "contextId" = some (.str "X") ∧
    decodeStream [exChunkTopCid] = [.done none] :=
  ⟨rfl, rfl, rfl⟩

/-- C4 amended: for every stream, the identifier passed to `onDone` is
the first truthy (present, non-null, nonempty) `contextId` of the
*unwrapped* payload of any decoded event — taken from the envelope's
nested `result` object when the payload is a JSON-RPC 2.0 envelope with
an object result, and from the payload's top level otherwise; a
`contextId` at the top level of such an envelope is not consulted. -/
theorem claim_C4_amended (chunks : List (List Char)) :
    decodeStream chunks
      = catCbs (allBlocks chunks)
          ++ [.done (firstSome ((streamEvents chunks).map eventCid))] :=
  decodeStream_events chunks

/-! ### C9 — capture is independent of event kind -/

theorem firstSome_eq_none (l : List (Option Json)) (h : ∀ o ∈ l, o = none) :
    firstSome l = none := by
  induction l with
  | nil => rfl
  | cons o os ih =>
    rw [show firstSome (o :: os) = orElseO o (firstSome os) from rfl,
      h o (List.mem_cons_self _ _),
      ih fun x hx => h x (List.mem_cons_of_mem _ hx)]
    rfl

/-- C9: a decoded payload of unrecognized kind dispatches no
`onWorking`/`onPart` callback, yet when its truthy `contextId` (in
unwrapped position) is the first one observed — every earlier decoded
event of the stream, of whatever kind, supplying none — that identifier
is the one passed to `onDone`. -/
theorem claim_C9 (chunks : List (List Char)) (pre : List Json) (e : Json)
    (rest : List Json) (c : Json)
    (hev : streamEvents chunks = pre ++ e :: rest)
    (hpre : ∀ p ∈ pre, eventCid p = none)
    (hkind : recognizedKind e = false)
    (hcid : eventCid e = some c) :
    dispatchSseEvent e = [] ∧
    decodeStream chunks = catCbs (allBlocks chunks) ++ [.done (some c)] := by
  constructor
  · simp only [dispatchSseEvent]
    split
    · rfl
    · split
      · rename_i harm
        rw [recognizedKind, harm] at hkind
        exact absurd hkind (by simp)
      · rename_i harm
        rw [recognizedKind, harm] at hkind
        exact absurd hkind (by simp)
      · rename_i harm
        rw [recognizedKind, harm] at hkind
        exact absurd hkind (by simp)
      · rfl
  · rw [decodeStream_events chunks, hev, List.map_append, firstSome_append,
      firstSome_eq_none (pre.map eventCid) (by
        intro o ho
        obtain ⟨p, hp, hpe⟩ := List.mem_map.1 ho
        rw [← hpe]
        exact hpre p hp),
      orElseO_none_left,
      show firstSome ((e :: rest).map eventCid)
        = orElseO (eventCid e) (firstSome (rest.map eventCid)) from rfl, hcid]
    rfl

/-- C9 witnessed on a concrete two-event stream: the first decoded event
is a recognized `working` update with no context identifier; the second
has unrecognized kind `"task"` and supplies the identifier that reaches
`onDone`. -/
theorem claim_C9_witness :
    (streamEvents [exChunkWorking, exChunkUnknownKind]
       = [exEventWorking] ++ exUnknownKind :: []) ∧
    (∀ p ∈ [exEventWorking], eventCid p = none) ∧
    (recognizedKind exUnknownKind = false) ∧
    (eventCid exUnknownKind = some (.str "c7")) ∧
    (dispatchSseEvent exUnknownKind = [] ∧
     decodeStream [exChunkWorking, exChunkUnknownKind]
       = catCbs (allBlocks [exChunkWorking, exChunkUnknownKind])
           ++ [.done (some (.str "c7"))]) :=
  ⟨rfl,
   by
     intro p hp
     simp only [List.mem_singleton] at hp
     subst hp
     rfl,
   rfl, rfl,
   claim_C9 [exChunkWorking, exChunkUnknownKind] [exEventWorking] exUnknownKind []
     (.str "c7") rfl
     (by
       intro p hp
       simp only [List.mem_singleton] at hp
       subst hp
       rfl)
     rfl rfl⟩

/-! ### Splitting on blank lines: composition across a concatenation -/

theorem splitOnNN_ne_nil (s : List Char) : splitOnNN s ≠ [] := by
  induction s using splitOnNN.induct with
  | case1 => simp [splitOnNN]
  | case2 c => simp [splitOnNN]
  | case3 c1 c2 rest h ih => simp [splitOnNN, h]
  | case4 c1 c2 rest h ih =>
    simp only [splitOnNN, if_neg h]
    cases hs : splitOnNN (c2 :: rest) with
    | nil => exact absurd hs ih
    | cons a as => simp [consHead]

theorem joinNN_consHead (c : Char) (l : List (List Char)) (h : l ≠ []) :
    joinNN (consHead c l) = c :: joinNN l := by
  cases l with
  | nil => exact absurd rfl h
  | cons x xs =>
    cases xs with
    | nil => rfl
    | cons y ys => rfl

theorem joinNN_splitOnNN (s : List Char) : joinNN (splitOnNN s) = s := by
  induction s using splitOnNN.induct with
  | case1 => rfl
  | case2 c => rfl
  | case3 c1 c2 rest h ih =>
    obtain ⟨h1, h2⟩ := h
    subst h1
    subst h2
    cases hs : splitOnNN rest with
    | nil => exact absurd hs (splitOnNN_ne_nil rest)
    | cons a as =>
      rw [hs] at ih
      show joinNN ([] :: splitOnNN rest) = '\n' :: '\n' :: rest
      rw [hs]
      show '\n' :: '\n' :: joinNN (a :: as) = '\n' :: '\n' :: rest
      rw [ih]
  | case4 c1 c2 rest h ih =>
    have e : splitOnNN (c1 :: c2 :: rest) = consHead c1 (splitOnNN (c2 :: rest)) := by
      simp only [splitOnNN]
      rw [if_neg h]
    rw [e, joinNN_consHead c1 _ (splitOnNN_ne_nil _), ih]

theorem splitOnNN_singleton (s h0 : List Char) (heq : splitOnNN s = [h0]) : h0 = s := by
  have hj := joinNN_splitOnNN s
  rw [heq] at hj
  exact hj

theorem initLast_cons (x : List Char) (l : List (List Char)) (h : l ≠ []) :
    initLast (x :: l) = (x :: (initLast l).1, (initLast l).2) := by
  cases l with
  | nil => exact absurd rfl h
  | cons y ys => rfl

theorem initLast_append (xs ys : List (List Char)) (h : ys ≠ []) :
    initLast (xs ++ ys) = (xs ++ (initLast ys).1, (initLast ys).2) := by
  induction xs with
  | nil => simp
  | cons x xs ih =>
    have hne : xs ++ ys ≠ [] := by
      intro hh
      exact h (List.append_eq_nil.mp hh).2
    rw [List.cons_append, initLast_cons x (xs ++ ys) hne, ih]
    rfl

/-- The first piece of splitting a nonempty input is empty or starts with
the input's first character. -/
theorem splitOnNN_head_cons (c : Char) (r : List Char) :
    ∀ a as, splitOnNN (c :: r) = a :: as → a = [] ∨ ∃ t, a = c :: t := by
  intro a as heq
  cases r with
  | nil =>
    rw [show splitOnNN [c] = [[c]] from rfl] at heq
    injection heq with h1 _
    exact Or.inr ⟨[], h1.symm⟩
  | cons d r2 =>
    by_cases hg : c = '\n' ∧ d = '\n'
    · obtain ⟨h1, h2⟩ := hg
      subst h1
      subst h2
      rw [show splitOnNN ('\n' :: '\n' :: r2) = [] :: splitOnNN r2 from rfl] at heq
      injection heq with h1 _
      exact Or.inl h1.symm
    · have e : splitOnNN (c :: d :: r2) = consHead c (splitOnNN (d :: r2)) := by
        simp only [splitOnNN]
        rw [if_neg hg]
      rw [e] at heq
      cases hS : splitOnNN (d :: r2) with
      | nil => exact absurd hS (splitOnNN_ne_nil _)
      | cons p ps =>
        rw [hS, show consHead c (p :: ps) = (c :: p) :: ps from rfl] at heq
        injection heq with h1 _
        exact Or.inr ⟨p, h1.symm⟩

/-- Composition of greedy blank-line splitting across a concatenation:
the complete pieces of `u` are final, and the residue of `u` is re-scanned
together with `v`. -/
theorem splitOnNN_append (u v : List Char) :
    splitOnNN (u ++ v)
      = (initLast (splitOnNN u)).1
          ++ splitOnNN ((initLast (splitOnNN u)).2 ++ v) := by
  induction u using splitOnNN.induct with
  | case1 => rfl
  | case2 c => rfl
  | case3 c1 c2 rest h ih =>
    obtain ⟨h1, h2⟩ := h
    subst h1
    subst h2
    show splitOnNN ('\n' :: '\n' :: (rest ++ v)) = _
    rw [show splitOnNN ('\n' :: '\n' :: (rest ++ v)) = [] :: splitOnNN (rest ++ v) from rfl,
      show splitOnNN ('\n' :: '\n' :: rest) = [] :: splitOnNN rest from rfl, ih]
    cases hs : splitOnNN rest with
    | nil => exact absurd hs (splitOnNN_ne_nil rest)
    | cons a as =>
      rw [initLast_cons [] (a :: as) (by simp)]
      rfl
  | case4 c1 c2 rest h ih =>
    have e1 : splitOnNN (c1 :: c2 :: rest) = consHead c1 (splitOnNN (c2 :: rest)) := by
      simp only [splitOnNN]
      rw [if_neg h]
    have e2 : splitOnNN (c1 :: c2 :: (rest ++ v))
        = consHead c1 (splitOnNN ((c2 :: rest) ++ v)) := by
      simp only [splitOnNN]
      rw [if_neg h]
      rfl
    show splitOnNN (c1 :: c2 :: (rest ++ v)) = _
    rw [e2, e1, ih]
    cases hS : splitOnNN (c2 :: rest) with
    | nil => exact absurd hS (splitOnNN_ne_nil _)
    | cons a as =>
      cases as with
      | nil =>
        have ha : a = c2 :: rest := splitOnNN_singleton _ _ hS
        show consHead c1 ([] ++ splitOnNN (a ++ v)) = [] ++ splitOnNN ((c1 :: a) ++ v)
        subst ha
        rw [List.nil_append, List.nil_append]
        rw [show (c1 :: c2 :: rest) ++ v = c1 :: c2 :: (rest ++ v) from rfl, e2]
      | cons b bs =>
        show consHead c1 ((a :: (initLast (b :: bs)).1)
              ++ splitOnNN ((initLast (b :: bs)).2 ++ v))
            = ((c1 :: a) :: (initLast (b :: bs)).1)
              ++ splitOnNN ((initLast (b :: bs)).2 ++ v)
        rfl

/-! ### Carriage-return normalization across a concatenation -/

theorem replCR_append (a b : List Char) : replCR (a ++ b) = replCR a ++ replCR b :=
  List.map_append _ a b

theorem noCR_replCR (s : List Char) : '\r' ∉ replCR s := by
  intro h
  rw [replCR, List.mem_map] at h
  obtain ⟨c, _, hc⟩ := h
  by_cases h2 : c = '\r'
  · rw [if_pos h2] at hc
    exact absurd hc (by decide)
  · rw [if_neg h2] at hc
    exact h2 hc

theorem replCR_of_noCR (s : List Char) (h : '\r' ∉ s) : replCR s = s := by
  rw [replCR]
  calc s.map (fun c => if c = '\r' then '\n' else c)
      = s.map id := List.map_congr_left (by
        intro c hc
        have : c ≠ '\r' := fun he => h (he ▸ hc)
        simp [this])
    _ = s := List.map_id s

theorem replCRLF_of_noCR (s : List Char) : '\r' ∉ s → replCRLF s = s := by
  induction s using replCRLF.induct with
  | case1 => intro _; rfl
  | case2 c => intro _; rfl
  | case3 c1 c2 rest hg ih =>
    intro h
    obtain ⟨h1, _⟩ := hg
    subst h1
    exact absurd (List.mem_cons_self _ _) h
  | case4 c1 c2 rest hg ih =>
    intro h
    have h2 : '\r' ∉ c2 :: rest := fun hm => h (List.mem_cons_of_mem _ hm)
    simp only [replCRLF]
    rw [if_neg hg, ih h2]

theorem replCRLF_append_noBoundary (a b : List Char) :
    ¬(a.getLast? = some '\r' ∧ b.head? = some '\n') →
    replCRLF (a ++ b) = replCRLF a ++ replCRLF b := by
  induction a using replCRLF.induct with
  | case1 => intro _; rfl
  | case2 c =>
    intro h
    cases b with
    | nil => rfl
    | cons d b2 =>
      have hg : ¬(c = '\r' ∧ d = '\n') := by
        intro hcd
        exact h ⟨by simp [hcd.1], by simp [hcd.2]⟩
      show replCRLF (c :: d :: b2) = [c] ++ replCRLF (d :: b2)
      simp only [replCRLF]
      rw [if_neg hg]
      rfl
  | case3 c1 c2 rest hg ih =>
    intro h
    obtain ⟨h1, h2⟩ := hg
    subst h1
    subst h2
    have hcond : ¬(rest.getLast? = some '\r' ∧ b.head? = some '\n') := by
      intro ⟨hr, hb⟩
      apply h
      refine ⟨?_, hb⟩
      cases rest with
      | nil => exact absurd hr (by simp)
      | cons x xs =>
        rw [List.getLast?_cons_cons, List.getLast?_cons_cons]
        exact hr
    show '\n' :: replCRLF (rest ++ b) = replCRLF ('\r' :: '\n' :: rest) ++ replCRLF b
    rw [show replCRLF ('\r' :: '\n' :: rest) = '\n' :: replCRLF rest from rfl, ih hcond]
    rfl
  | case4 c1 c2 rest hg ih =>
    intro h
    have hcond : ¬((c2 :: rest).getLast? = some '\r' ∧ b.head? = some '\n') := by
      intro ⟨hr, hb⟩
      exact h ⟨by rw [List.getLast?_cons_cons]; exact hr, hb⟩
    have e2 : replCRLF (c1 :: c2 :: (rest ++ b)) = c1 :: replCRLF ((c2 :: rest) ++ b) := by
      simp only [replCRLF]
      rw [if_neg hg]
      rfl
    have e1 : replCRLF (c1 :: c2 :: rest) = c1 :: replCRLF (c2 :: rest) := by
      simp only [replCRLF]
      rw [if_neg hg]
    show replCRLF (c1 :: c2 :: (rest ++ b)) = replCRLF (c1 :: c2 :: rest) ++ replCRLF b
    rw [e2, e1, ih hcond]
    rfl

theorem noCR_normalizeBuf (s : List Char) : '\r' ∉ normalizeBuf s := noCR_replCR _

theorem normalizeBuf_of_noCR (s : List Char) (h : '\r' ∉ s) : normalizeBuf s = s := by
  rw [normalizeBuf, replCRLF_of_noCR s h, replCR_of_noCR s h]

theorem normalizeBuf_append_noBoundary (a b : List Char)
    (h : ¬(a.getLast? = some '\r' ∧ b.head? = some '\n')) :
    normalizeBuf (a ++ b) = normalizeBuf a ++ normalizeBuf b := by
  rw [normalizeBuf, replCRLF_append_noBoundary a b h, replCR_append]
  rfl

theorem normalizeBuf_append_left (a b : List Char) (h : '\r' ∉ a) :
    normalizeBuf (a ++ b) = a ++ normalizeBuf b := by
  have hcond : ¬(a.getLast? = some '\r' ∧ b.head? = some '\n') := by
    intro ⟨hr, _⟩
    exact h (List.mem_of_mem_getLast? (by rw [hr]; rfl))
  rw [normalizeBuf_append_noBoundary a b hcond, normalizeBuf_of_noCR a h]

/-! ### Residue invariants: no carriage return, no blank-line separator -/

theorem splitOnNN_of_noNN (b : List Char) : hasNN b = false → splitOnNN b = [b] := by
  induction b using splitOnNN.induct with
  | case1 => intro _; rfl
  | case2 c => intro _; rfl
  | case3 c1 c2 rest hg ih =>
    intro h
    obtain ⟨h1, h2⟩ := hg
    subst h1
    subst h2
    simp [hasNN] at h
  | case4 c1 c2 rest hg ih =>
    intro h
    have hc : hasNN (c2 :: rest) = false := by
      simp only [hasNN, Bool.or_eq_false_iff] at h
      exact h.2
    simp only [splitOnNN]
    rw [if_neg hg, ih hc]
    rfl

theorem splitOnNN_mem_noNN (s : List Char) : ∀ x ∈ splitOnNN s, hasNN x = false := by
  induction s using splitOnNN.induct with
  | case1 =>
    intro x hx
    simp [splitOnNN] at hx
    subst hx
    rfl
  | case2 c =>
    intro x hx
    simp [splitOnNN] at hx
    subst hx
    rfl
  | case3 c1 c2 rest hg ih =>
    intro x hx
    obtain ⟨h1, h2⟩ := hg
    subst h1
    subst h2
    rw [show splitOnNN ('\n' :: '\n' :: rest) = [] :: splitOnNN rest from rfl] at hx
    rcases List.mem_cons.mp hx with hx1 | hx2
    · subst hx1
      rfl
    · exact ih x hx2
  | case4 c1 c2 rest hg ih =>
    intro x hx
    have e1 : splitOnNN (c1 :: c2 :: rest) = consHead c1 (splitOnNN (c2 :: rest)) := by
      simp only [splitOnNN]
      rw [if_neg hg]
    rw [e1] at hx
    cases hS : splitOnNN (c2 :: rest) with
    | nil => exact absurd hS (splitOnNN_ne_nil _)
    | cons a as =>
      rw [hS, show consHead c1 (a :: as) = (c1 :: a) :: as from rfl] at hx
      rcases List.mem_cons.mp hx with hx1 | hx2
      · subst hx1
        have ha : hasNN a = false := ih a (by rw [hS]; exact List.mem_cons_self _ _)
        rcases splitOnNN_head_cons c2 rest a as hS with h0 | ⟨t, ht⟩
        · subst h0
          rfl
        · subst ht
          simp only [hasNN, Bool.or_eq_false_iff]
          refine ⟨?_, ha⟩
          by_cases hc1 : c1 = '\n'
          · have hc2 : ¬ c2 = '\n' := fun hc2 => hg ⟨hc1, hc2⟩
            simp [hc2]
          · simp [hc1]
      · exact ih x (by rw [hS]; exact List.mem_cons_of_mem _ hx2)

theorem mem_joinNN (x : List (List Char)) (c : Char) :
    ∀ l ∈ x, c ∈ l → c ∈ joinNN x := by
  induction x using joinNN.induct with
  | case1 => intro l hl _; simp at hl
  | case2 y =>
    intro l hl hc
    simp only [List.mem_singleton] at hl
    subst hl
    exact hc
  | case3 y z rest ih =>
    intro l hl hc
    rcases List.mem_cons.mp hl with h1 | h2
    · subst h1
      exact List.mem_append_left _ hc
    · refine List.mem_append_right _ ?_
      exact List.mem_cons_of_mem _ (List.mem_cons_of_mem _ (ih l h2 hc))

theorem splitOnNN_mem_noCR (s : List Char) (hs : '\r' ∉ s) :
    ∀ x ∈ splitOnNN s, '\r' ∉ x := by
  intro x hx hmem
  exact hs (joinNN_splitOnNN s ▸ mem_joinNN (splitOnNN s) '\r' x hx hmem)

theorem initLast_snd_mem (l : List (List Char)) (h : l ≠ []) : (initLast l).2 ∈ l := by
  induction l using initLast.induct with
  | case1 => exact absurd rfl h
  | case2 x => exact List.mem_singleton.mpr rfl
  | case3 x y rest ih =>
    exact List.mem_cons_of_mem _ (ih (by simp))

/-- After any `processBuffer`, the retained buffer contains no carriage
return and no blank-line separator. -/
theorem processBuffer_buffer_inv (st : DecState) :
    '\r' ∉ (processBuffer st).1.buffer ∧ hasNN (processBuffer st).1.buffer = false := by
  rw [processBuffer_char]
  exact ⟨splitOnNN_mem_noCR _ (noCR_normalizeBuf _) _
           (initLast_snd_mem _ (splitOnNN_ne_nil _)),
         splitOnNN_mem_noNN _ _ (initLast_snd_mem _ (splitOnNN_ne_nil _))⟩

/-- `feedChunk` in closed form. -/
theorem feedChunk_char (st : DecState) (c : List Char) :
    feedChunk st c
      = ({ buffer := (initLast (splitOnNN (normalizeBuf (st.buffer ++ c)))).2,
           firstCid := orElseO st.firstCid (firstSome
             ((initLast (splitOnNN (normalizeBuf (st.buffer ++ c)))).1.map blockCid)) },
         catCbs (initLast (splitOnNN (normalizeBuf (st.buffer ++ c)))).1) :=
  processBuffer_char _

/-- Merging two consecutive chunks: feeding `c1` then `c2` equals feeding
`c1 ++ c2`, provided the buffer is carriage-return-free (an invariant of
the loop) and the boundary does not separate a CR from a following LF. -/
theorem feedChunk_merge (st : DecState) (c1 c2 : List Char)
    (hCR : '\r' ∉ st.buffer)
    (hb : ¬(c1.getLast? = some '\r' ∧ c2.head? = some '\n')) :
    feedChunk st (c1 ++ c2)
      = ((feedChunk (feedChunk st c1).1 c2).1,
         (feedChunk st c1).2 ++ (feedChunk (feedChunk st c1).1 c2).2) := by
  have hbc : ¬((st.buffer ++ c1).getLast? = some '\r' ∧ c2.head? = some '\n') := by
    intro ⟨hr, hn⟩
    by_cases hc1 : c1 = []
    · subst hc1
      rw [List.append_nil] at hr
      exact hCR (List.mem_of_mem_getLast? (by rw [hr]; rfl))
    · rw [List.getLast?_append_of_ne_nil _ hc1] at hr
      exact hb ⟨hr, hn⟩
  have hnorm : normalizeBuf (st.buffer ++ (c1 ++ c2))
      = normalizeBuf (st.buffer ++ c1) ++ normalizeBuf c2 := by
    rw [← List.append_assoc, normalizeBuf_append_noBoundary _ _ hbc]
  have hresCR : '\r' ∉ (initLast (splitOnNN (normalizeBuf (st.buffer ++ c1)))).2 :=
    splitOnNN_mem_noCR _ (noCR_normalizeBuf _) _
      (initLast_snd_mem _ (splitOnNN_ne_nil _))
  have hnorm2 : normalizeBuf ((initLast (splitOnNN (normalizeBuf (st.buffer ++ c1)))).2 ++ c2)
      = (initLast (splitOnNN (normalizeBuf (st.buffer ++ c1)))).2 ++ normalizeBuf c2 :=
    normalizeBuf_append_left _ _ hresCR
  rw [feedChunk_char st (c1 ++ c2), feedChunk_char st c1]
  dsimp only
  rw [feedChunk_char]
  dsimp only
  rw [hnorm, splitOnNN_append, ← hnorm2,
    initLast_append _ _ (splitOnNN_ne_nil _)]
  dsimp only
  rw [List.map_append, firstSome_append, catCbs_append, orElseO_assoc]

/-- Feeding a chunk sequence that never splits a CRLF pair equals feeding
its concatenation as one chunk, from any buffer satisfying the loop
invariants. -/
theorem feedChunks_concat (cs : List (List Char)) : ∀ st : DecState,
    noSplitCRLF cs = true → '\r' ∉ st.buffer → hasNN st.buffer = false →
    feedChunks st cs = feedChunk st (concatAll cs) := by
  induction cs with
  | nil =>
    intro st _ hCR hNN
    have hpb : processBuffer st = (st, []) := by
      rw [processBuffer_char, normalizeBuf_of_noCR _ hCR, splitOnNN_of_noNN _ hNN]
      show ({ buffer := st.buffer, firstCid := orElseO st.firstCid none },
            ([] : List Callback)) = (st, [])
      rw [orElseO_none_right]
    show (st, []) = feedChunk st []
    rw [show feedChunk st [] = processBuffer { st with buffer := st.buffer ++ [] } from rfl]
    rw [show ({ st with buffer := st.buffer ++ [] } : DecState) = st from by
      rw [List.append_nil]]
    exact hpb.symm
  | cons c cs ih =>
    intro st hns hCR hNN
    have hhead : ¬(c.getLast? = some '\r' ∧ (concatAll cs).head? = some '\n') := by
      intro hcond
      unfold noSplitCRLF at hns
      rw [if_pos hcond] at hns
      exact absurd hns (by simp)
    have htail : noSplitCRLF cs = true := by
      unfold noSplitCRLF at hns
      rwa [if_neg hhead] at hns
    have hinv := processBuffer_buffer_inv { st with buffer := st.buffer ++ c }
    show ((feedChunks (feedChunk st c).1 cs).1,
          (feedChunk st c).2 ++ (feedChunks (feedChunk st c).1 cs).2) = _
    rw [ih (feedChunk st c).1 htail hinv.1 hinv.2]
    exact (feedChunk_merge st c (concatAll cs) hCR hhead).symm

/-! ### C1 — chunk-boundary insensitivity of stream decoding -/

/-- C1 counterexample: the same byte sequence — two `data:` lines
separated by CRLF — delivered whole produces different callbacks than
delivered split between the CR and the LF.  Whole, the two lines form one
block whose joined body is not valid JSON (skipped); split, the lone CR
is normalized to LF in the buffer, the arriving LF completes a spurious
blank line, and each line becomes its own valid block dispatching
`onPart`. -/
theorem claim_C1_counterexample :
    (exChunkA ++ exChunkB = exWhole) ∧
    decodeStream [exChunkA, exChunkB] ≠ decodeStream [exWhole] := by
  refine ⟨rfl, ?_⟩
  intro h
  have h1 : (decodeStream [exChunkA, exChunkB]).length = 3 := rfl
  rw [h] at h1
  have h2 : (decodeStream [exWhole]).length = 1 := rfl
  rw [h2] at h1
  exact absurd h1 (by decide)

/-- C1 amended: decoding is insensitive to every chunking of the same
character sequence that never separates a CR from an immediately
following LF (in particular, to all chunkings of CR-free streams and all
splits inside `data:` lines or elsewhere within a line): the callback
trace equals that of delivering the whole sequence as a single chunk. -/
theorem claim_C1_amended (chunks : List (List Char))
    (h : noSplitCRLF chunks = true) :
    decodeStream chunks = decodeStream [concatAll chunks] := by
  have h1 : feedChunks initState chunks = feedChunk initState (concatAll chunks) :=
    feedChunks_concat chunks initState h (by simp [initState]) rfl
  have h2 : feedChunks initState [concatAll chunks]
      = feedChunk initState (concatAll chunks) := by
    show ((feedChunk initState (concatAll chunks)).1,
          (feedChunk initState (concatAll chunks)).2 ++ []) = _
    rw [List.append_nil]
  show runStreamGo chunks initState .eof none
      = runStreamGo [concatAll chunks] initState .eof none
  rw [runStreamGo_none_eof, runStreamGo_none_eof, h1, h2]

/-- C1 amended, witnessed on a concrete chunking that splits inside a
`data:` line. -/
theorem claim_C1_amended_witness :
    (noSplitCRLF exGoodSplit = true) ∧
    decodeStream exGoodSplit = decodeStream [concatAll exGoodSplit] :=
  ⟨rfl, claim_C1_amended exGoodSplit rfl⟩

end A2A
